import Mathlib

/-!
Verification of the task-store component of a console to-do application
(`src/todo.py`, class `TodoApp`).

The store state is the ordered list `self.tasks`; each task is a record
with fields `id`, `description`, `completed`, `created_at` and, once the
task has been completed, `completed_at`.  The mutating operations are
`add_task`, `remove_task`, `mark_completed` and `clear_completed`;
`show_stats` is a pure read.  Wall-clock timestamps
(`datetime.now().strftime(...)`) are modelled by passing the formatted
timestamp string explicitly.  Console output is modelled by returning the
distinguishable outcome of each print path as a small result type.
File persistence (`save_tasks` / `load_tasks`) goes through Python's
`json` module; the file content is modelled as the JSON value it
serializes, an explicit `Json` inductive below.
-/

namespace Todo

/-- One task record, as built by `TodoApp.add_task`: the Python dict has
keys `id`, `description`, `completed`, `created_at`, and acquires the key
`completed_at` only when `mark_completed` runs; the optional field models
that absent key.  `id` is an `Int` because looked-up ids come from
Python's `int(...)`, which also parses negative numbers. -/
structure Task where
  id : Int
  description : String
  completed : Bool
  created_at : String
  completed_at : Option String
  deriving Repr, DecidableEq

/-- Models the whitespace class stripped by Python's `str.strip()` for the
ASCII whitespace characters (space, tab, newline, carriage return,
vertical tab, form feed); exotic Unicode whitespace is not modelled. -/
def pyIsSpace (c : Char) : Bool :=
  c = ' ' || c = '\t' || c = '\n' || c = '\r' || c = Char.ofNat 11 || c = Char.ofNat 12

/-- Models Python's `str.strip()`: drop leading and trailing whitespace. -/
def pyStrip (s : String) : String :=
  String.mk (((s.data.dropWhile pyIsSpace).reverse.dropWhile pyIsSpace).reverse)

/-- Digit list to number, most significant first. -/
def digitsToNat (ds : List Char) : Nat :=
  ds.foldl (fun acc c => acc * 10 + (c.toNat - 48)) 0

/-- Models Python's built-in `int(...)` applied to a string: surrounding
whitespace is ignored, an optional single `+`/`-` sign precedes a
non-empty run of decimal digits; anything else raises `ValueError`,
modelled as `none`.  (Underscore digit separators and non-ASCII digits
are not modelled.) -/
def pyInt (s : String) : Option Int :=
  let cs := (pyStrip s).data
  match cs with
  | [] => none
  | c :: rest =>
    let signed : Int × List Char :=
      if c = '-' then (-1, rest) else if c = '+' then (1, rest) else (1, cs)
    if signed.2 ≠ [] ∧ signed.2.all Char.isDigit then
      some (signed.1 * (digitsToNat signed.2 : Int))
    else none

/-- Outcome of `TodoApp.add_task`: `ok` is the `return True` path, which
reports the (unstripped) description; `validationError` is the
`"Error: Task description cannot be empty!"` / `return False` path. -/
inductive AddResult where
  | ok (reported : String)
  | validationError
  deriving Repr, DecidableEq

/-- `TodoApp.add_task`: reject a description that strips to empty;
otherwise append a fresh task with `id = len(tasks) + 1`, the stripped
description, `completed = False` and `created_at = now`.  The
`save_tasks()` call only touches the file, not the in-memory state. -/
def add_task (tasks : List Task) (task_description : String) (now : String) :
    AddResult × List Task :=
  if pyStrip task_description = "" then
    (AddResult.validationError, tasks)
  else
    (AddResult.ok task_description,
      tasks ++ [⟨(tasks.length : Int) + 1, pyStrip task_description, false, now, none⟩])

/-- Outcome of `TodoApp.remove_task` / `TodoApp.mark_completed`:
`ok` is the success path reporting the task's description;
`invalidArgument` is the `except ValueError` path
(`"Error: Please enter a valid task ID (number)!"`);
`notFound` is the `"Error: No task found with ID ..."` path. -/
inductive OpResult where
  | ok (reported : String)
  | invalidArgument
  | notFound
  deriving Repr, DecidableEq

/-- The linear scan of `TodoApp.remove_task` (`for i, task in
enumerate(self.tasks): if task["id"] == task_id: ... break` followed by
`self.tasks.pop(task_index)`): returns the first task whose id matches
together with the list with that occurrence removed, or `none`. -/
def removeFirst (task_id : Int) : List Task → Option (Task × List Task)
  | [] => none
  | t :: ts =>
    if t.id = task_id then some (t, ts)
    else
      match removeFirst task_id ts with
      | none => none
      | some (r, rest) => some (r, t :: rest)

/-- `TodoApp.remove_task`: parse the id with `int(...)`, scan for the
first matching task, pop it. -/
def remove_task (tasks : List Task) (task_id : String) : OpResult × List Task :=
  match pyInt task_id with
  | none => (OpResult.invalidArgument, tasks)
  | some tid =>
    match removeFirst tid tasks with
    | none => (OpResult.notFound, tasks)
    | some (removed, rest) => (OpResult.ok removed.description, rest)

/-- The loop of `TodoApp.mark_completed`: on the first task whose id
matches, set `completed = True`, set `completed_at` to the formatted
current time, and return; later tasks are not inspected. -/
def markFirst (task_id : Int) (now : String) : List Task → Option (String × List Task)
  | [] => none
  | t :: ts =>
    if t.id = task_id then
      some (t.description, { t with completed := true, completed_at := some now } :: ts)
    else
      match markFirst task_id now ts with
      | none => none
      | some (d, rest) => some (d, t :: rest)

/-- `TodoApp.mark_completed`: parse the id with `int(...)`, then mark the
first matching task completed. -/
def mark_completed (tasks : List Task) (task_id : String) (now : String) :
    OpResult × List Task :=
  match pyInt task_id with
  | none => (OpResult.invalidArgument, tasks)
  | some tid =>
    match markFirst tid now tasks with
    | none => (OpResult.notFound, tasks)
    | some (d, rest) => (OpResult.ok d, rest)

/-- Outcome of `TodoApp.clear_completed`: `cleared n` is the
`"✓ Cleared {n} completed task(s)"` path; `noCompletedTasks` is the early
`"No completed tasks to clear!"` return taken when `completed_count == 0`. -/
inductive ClearResult where
  | cleared (count : Nat)
  | noCompletedTasks
  deriving Repr, DecidableEq

/-- `TodoApp.clear_completed`: count the completed tasks; if zero, print
the no-op message and return without filtering; otherwise keep only the
non-completed tasks and report the count. -/
def clear_completed (tasks : List Task) : ClearResult × List Task :=
  let completed_count := (tasks.filter (fun t => t.completed)).length
  if completed_count = 0 then
    (ClearResult.noCompletedTasks, tasks)
  else
    (ClearResult.cleared completed_count, tasks.filter (fun t => !t.completed))

/-- The four numbers computed and printed by `TodoApp.show_stats` on a
non-empty store.  `completion_rate` is Python's true division
`completed / total * 100`, modelled exactly as a rational. -/
structure Stats where
  total : Nat
  completed : Nat
  pending : Nat
  completion_rate : Rat
  deriving Repr, DecidableEq

/-- `TodoApp.show_stats`: on an empty store it prints
`"📊 Statistics: No tasks available"` and returns before computing
anything, modelled as `none`; otherwise it reports the four statistics,
with the rate guarded by `if total > 0 else 0`. -/
def show_stats (tasks : List Task) : Option Stats :=
  if tasks.isEmpty then none
  else
    let total := tasks.length
    let completed := (tasks.filter (fun t => t.completed)).length
    let pending := total - completed
    some ⟨total, completed, pending,
      if total > 0 then (completed : Rat) / (total : Rat) * 100 else 0⟩

/-- JSON values, the data written by `json.dump` and produced by
`json.loads`.  Numbers are restricted to the integers, the only numeric
values this program ever stores. -/
inductive Json where
  | null
  | jbool (b : Bool)
  | jnum (n : Int)
  | jstr (s : String)
  | jarr (xs : List Json)
  | jobj (fields : List (String × Json))

/-- The JSON object `json.dump` writes for one task dict: keys in the
dict's insertion order, with `completed_at` present only once
`mark_completed` has added it. -/
def taskToJson (t : Task) : Json :=
  Json.jobj
    ([("id", Json.jnum t.id),
      ("description", Json.jstr t.description),
      ("completed", Json.jbool t.completed),
      ("created_at", Json.jstr t.created_at)] ++
      match t.completed_at with
      | none => []
      | some c => [("completed_at", Json.jstr c)])

/-- Key lookup in a JSON object, as in the dict `json.loads` builds. -/
def jLookup : List (String × Json) → String → Option Json
  | [], _ => none
  | (k, v) :: rest, key => if k = key then some v else jLookup rest key

/-- Reading one task record back from its JSON object: the four mandatory
fields with their types from the data model, plus the optional
`completed_at`. -/
def taskOfJson : Json → Option Task
  | Json.jobj fields =>
    match jLookup fields "id", jLookup fields "description",
        jLookup fields "completed", jLookup fields "created_at" with
    | some (Json.jnum i), some (Json.jstr d), some (Json.jbool c), some (Json.jstr ca) =>
      match jLookup fields "completed_at" with
      | none => some ⟨i, d, c, ca, none⟩
      | some (Json.jstr x) => some ⟨i, d, c, ca, some x⟩
      | some _ => none
    | _, _, _, _ => none
  | _ => none

/-- Decoding a list of task objects, failing if any element fails. -/
def decodeTaskList : List Json → Option (List Task)
  | [] => some []
  | j :: js =>
    match taskOfJson j, decodeTaskList js with
    | some t, some ts => some (t :: ts)
    | _, _ => none

/-- `TodoApp.save_tasks`: `json.dump(self.tasks, file, ...)` writes the
task list as one JSON array; the file content is modelled as that JSON
value. -/
def save_tasks (tasks : List Task) : Json :=
  Json.jarr (tasks.map taskToJson)

/-- `TodoApp.load_tasks` on a file holding a JSON array of task records:
`self.tasks = json.loads(content)` reads the array back.  (The
missing-file, blank-file and malformed-JSON branches all reset to `[]`
and are not reached on a file written by `save_tasks`.) -/
def load_tasks : Json → Option (List Task)
  | Json.jarr xs => decodeTaskList xs
  | _ => none

/-- One call of the interactive loop into a mutating store operation,
with the wall-clock timestamp of the call made explicit. -/
inductive Op where
  | add (task_description : String) (now : String)
  | remove (task_id : String)
  | complete (task_id : String) (now : String)
  | clear

/-- The state transition of one operation: the in-memory task list each
`TodoApp` method leaves behind. -/
def applyOp (tasks : List Task) : Op → List Task
  | Op.add d now => (add_task tasks d now).2
  | Op.remove s => (remove_task tasks s).2
  | Op.complete s now => (mark_completed tasks s now).2
  | Op.clear => (clear_completed tasks).2

/-- States reachable from the empty store (a fresh `TodoApp` with no
backing file) by any sequence of the four mutating operations. -/
inductive Reachable : List Task → Prop where
  | empty : Reachable []
  | step {ts : List Task} (op : Op) : Reachable ts → Reachable (applyOp ts op)

/-- Scanning a list whose prefix has no matching id finds the first match. -/
theorem removeFirst_append (n : Int) (pre : List Task) (t : Task) (post : List Task)
    (hpre : ∀ u ∈ pre, u.id ≠ n) (ht : t.id = n) :
    removeFirst n (pre ++ t :: post) = some (t, pre ++ post) := by
  induction pre with
  | nil => simp [removeFirst, ht]
  | cons u us ih =>
    have hu : u.id ≠ n := hpre u (by simp)
    have ih2 := ih (fun v hv => hpre v (by simp [hv]))
    simp [removeFirst, hu, ih2]

/-- When no task has the sought id the scan fails. -/
theorem removeFirst_eq_none (n : Int) (ts : List Task) (h : ∀ u ∈ ts, u.id ≠ n) :
    removeFirst n ts = none := by
  induction ts with
  | nil => rfl
  | cons u us ih =>
    have hu : u.id ≠ n := h u (by simp)
    have ih2 := ih (fun v hv => h v (by simp [hv]))
    simp [removeFirst, hu, ih2]

/-- Every task surviving a successful removal was already in the list. -/
theorem removeFirst_subset (n : Int) :
    ∀ (ts : List Task) (r : Task) (rest : List Task),
      removeFirst n ts = some (r, rest) → ∀ u ∈ rest, u ∈ ts := by
  intro ts
  induction ts with
  | nil => intro r rest h; simp [removeFirst] at h
  | cons v vs ih =>
    intro r rest h u hu
    by_cases hv : v.id = n
    · simp [removeFirst, hv] at h
      simp [← h.2] at hu
      simp [hu]
    · simp only [removeFirst, hv, if_neg hv] at h
      cases hrec : removeFirst n vs with
      | none => rw [hrec] at h; simp at h
      | some p =>
        rw [hrec] at h
        simp at h
        rcases h with ⟨h1, h2⟩
        rw [← h2] at hu
        rcases List.mem_cons.mp hu with h3 | h3
        · simp [h3]
        · have := ih p.1 p.2 (by rw [hrec]) u h3
          simp [this]

/-- Scanning a list whose prefix has no matching id marks the first match. -/
theorem markFirst_append (n : Int) (now : String) (pre : List Task) (t : Task)
    (post : List Task) (hpre : ∀ u ∈ pre, u.id ≠ n) (ht : t.id = n) :
    markFirst n now (pre ++ t :: post) =
      some (t.description, pre ++ { t with completed := true, completed_at := some now } :: post) := by
  induction pre with
  | nil => simp [markFirst, ht]
  | cons u us ih =>
    have hu : u.id ≠ n := hpre u (by simp)
    have ih2 := ih (fun v hv => hpre v (by simp [hv]))
    simp [markFirst, hu, ih2]

/-- When no task has the sought id, marking fails. -/
theorem markFirst_eq_none (n : Int) (now : String) (ts : List Task)
    (h : ∀ u ∈ ts, u.id ≠ n) : markFirst n now ts = none := by
  induction ts with
  | nil => rfl
  | cons u us ih =>
    have hu : u.id ≠ n := h u (by simp)
    have ih2 := ih (fun v hv => h v (by simp [hv]))
    simp [markFirst, hu, ih2]

/-- Every task present after a successful marking is either an untouched
original task or the completion update of an original task. -/
theorem markFirst_mem (n : Int) (now : String) :
    ∀ (ts : List Task) (d : String) (rest : List Task),
      markFirst n now ts = some (d, rest) →
      ∀ u ∈ rest, u ∈ ts ∨
        ∃ t ∈ ts, u = { t with completed := true, completed_at := some now } := by
  intro ts
  induction ts with
  | nil => intro d rest h; simp [markFirst] at h
  | cons v vs ih =>
    intro d rest h u hu
    by_cases hv : v.id = n
    · subst hv
      simp [markFirst] at h
      rw [← h.2] at hu
      rcases List.mem_cons.mp hu with h3 | h3
      · right; exact ⟨v, by simp, h3⟩
      · left; simp [h3]
    · simp only [markFirst, hv, if_neg hv] at h
      cases hrec : markFirst n now vs with
      | none => rw [hrec] at h; simp at h
      | some p =>
        rw [hrec] at h
        simp at h
        rcases h with ⟨h1, h2⟩
        rw [← h2] at hu
        rcases List.mem_cons.mp hu with h3 | h3
        · left; simp [h3]
        · rcases ih p.1 p.2 (by rw [hrec]) u h3 with h4 | ⟨t, ht1, ht2⟩
          · left; simp [h4]
          · right; exact ⟨t, by simp [ht1], ht2⟩

example : pyStrip "  buy milk " = "buy milk" := by decide
example : pyInt " 2 " = some 2 := by decide
example : pyInt "2x" = none := by decide
example : pyInt "-13" = some (-13) := by decide

/-- C4: for every description whose stripped form is non-empty and every
store state, `add_task` succeeds and appends exactly one task at the end,
with the stripped description, `id` equal to the prior length plus one,
`completed = false` and the creation timestamp; all prior tasks are
unchanged. -/
theorem add_task_appends (tasks : List Task) (d now : String) (h : pyStrip d ≠ "") :
    add_task tasks d now =
      (AddResult.ok d,
        tasks ++ [{ id := (tasks.length : Int) + 1, description := pyStrip d,
                    completed := false, created_at := now, completed_at := none }]) := by
  simp [add_task, h]

/-- Witness for C4 at a concrete description and empty store. -/
theorem add_task_appends_witness :
    pyStrip "  buy milk " ≠ "" ∧
    add_task [] "  buy milk " "2026-10-12 00:00:00" =
      (AddResult.ok "  buy milk ",
        [{ id := 1, description := "buy milk", completed := false,
           created_at := "2026-10-12 00:00:00", completed_at := none }]) := by
  have h := add_task_appends [] "  buy milk " "2026-10-12 00:00:00" (by decide)
  exact ⟨by decide, h.trans (by decide)⟩

/-- C5: a description that is empty or all whitespace after stripping is
rejected with the validation error and the task list is left unchanged. -/
theorem add_task_blank_rejected (tasks : List Task) (d now : String) (h : pyStrip d = "") :
    add_task tasks d now = (AddResult.validationError, tasks) := by
  simp [add_task, h]

/-- Witness for C5 at the all-whitespace description on a one-task store. -/
theorem add_task_blank_rejected_witness :
    pyStrip "   " = "" ∧
    add_task [⟨1, "a", false, "t", none⟩] "   " "u" =
      (AddResult.validationError, [⟨1, "a", false, "t", none⟩]) :=
  ⟨by decide, add_task_blank_rejected [⟨1, "a", false, "t", none⟩] "   " "u" (by decide)⟩

/-- C6: `remove_task` reports `invalidArgument` and mutates nothing when
the id does not parse as an integer; reports `notFound` and leaves the
list unchanged when no task carries the id; and otherwise removes exactly
the first matching task, shrinking the list by one and keeping every
other task in its original order. -/
theorem remove_task_spec (tasks : List Task) (s : String) :
    (pyInt s = none → remove_task tasks s = (OpResult.invalidArgument, tasks)) ∧
    (∀ n : Int, pyInt s = some n → (∀ t ∈ tasks, t.id ≠ n) →
      remove_task tasks s = (OpResult.notFound, tasks)) ∧
    (∀ (n : Int) (pre : List Task) (t : Task) (post : List Task),
      pyInt s = some n → tasks = pre ++ t :: post → (∀ u ∈ pre, u.id ≠ n) → t.id = n →
      remove_task tasks s = (OpResult.ok t.description, pre ++ post) ∧
        (pre ++ post).length + 1 = tasks.length) := by
  refine ⟨?_, ?_, ?_⟩
  · intro h; simp [remove_task, h]
  · intro n hs habs
    simp [remove_task, hs, removeFirst_eq_none n tasks habs]
  · intro n pre t post hs hts hpre ht
    subst hts
    refine ⟨?_, by simp; omega⟩
    simp [remove_task, hs, removeFirst_append n pre t post hpre ht]

/-- Witness for C6 at a two-task store and the parseable id "2". -/
theorem remove_task_spec_witness :
    remove_task [⟨1, "a", false, "t", none⟩, ⟨2, "b", false, "t", none⟩] "2" =
      (OpResult.ok "b", [⟨1, "a", false, "t", none⟩]) := by
  have h := (remove_task_spec [⟨1, "a", false, "t", none⟩, ⟨2, "b", false, "t", none⟩] "2").2.2
    2 [⟨1, "a", false, "t", none⟩] ⟨2, "b", false, "t", none⟩ []
    (by decide) rfl (by decide) rfl
  exact h.1.trans (by decide)

/-- C7: completing an existing task sets `completed = true` and stamps
`completed_at`; completing the same id again succeeds, keeps
`completed = true`, and overwrites `completed_at` with the new
timestamp. -/
theorem mark_completed_idempotent (pre post : List Task) (t : Task) (s now1 now2 : String)
    (n : Int) (hs : pyInt s = some n) (hpre : ∀ u ∈ pre, u.id ≠ n) (ht : t.id = n) :
    mark_completed (pre ++ t :: post) s now1 =
      (OpResult.ok t.description,
        pre ++ { t with completed := true, completed_at := some now1 } :: post) ∧
    mark_completed (pre ++ { t with completed := true, completed_at := some now1 } :: post) s now2 =
      (OpResult.ok t.description,
        pre ++ { t with completed := true, completed_at := some now2 } :: post) := by
  have h1 := markFirst_append n now1 pre t post hpre ht
  have h2 := markFirst_append n now2 pre { t with completed := true, completed_at := some now1 }
    post hpre ht
  constructor
  · simp [mark_completed, hs, h1]
  · simp [mark_completed, hs, h2]

/-- Witness for C7: completing task 1 twice at two timestamps. -/
theorem mark_completed_idempotent_witness :
    mark_completed [⟨1, "a", false, "t0", none⟩] "1" "t1" =
      (OpResult.ok "a", [⟨1, "a", true, "t0", some "t1"⟩]) ∧
    mark_completed [⟨1, "a", true, "t0", some "t1"⟩] "1" "t2" =
      (OpResult.ok "a", [⟨1, "a", true, "t0", some "t2"⟩]) := by
  have h := mark_completed_idempotent [] [] ⟨1, "a", false, "t0", none⟩ "1" "t1" "t2" 1
    (by decide) (by simp) rfl
  exact ⟨h.1.trans (by decide), h.2.trans (by decide)⟩

/-- C10: a successful `mark_completed` rewrites only the first matching
task, changing only its `completed` and `completed_at` fields — its `id`,
`description` and `created_at` survive — while every task before it,
every task after it (including any later task with the same id), and the
list length are untouched. -/
theorem mark_completed_frame (pre post : List Task) (t : Task) (s now : String) (n : Int)
    (hs : pyInt s = some n) (hpre : ∀ u ∈ pre, u.id ≠ n) (ht : t.id = n) :
    mark_completed (pre ++ t :: post) s now =
      (OpResult.ok t.description,
        pre ++ { t with completed := true, completed_at := some now } :: post) ∧
    ({ t with completed := true, completed_at := some now } : Task).id = t.id ∧
    ({ t with completed := true, completed_at := some now } : Task).description = t.description ∧
    ({ t with completed := true, completed_at := some now } : Task).created_at = t.created_at ∧
    (pre ++ { t with completed := true, completed_at := some now } :: post).length =
      (pre ++ t :: post).length := by
  refine ⟨?_, rfl, rfl, rfl, by simp⟩
  simp [mark_completed, hs, markFirst_append n now pre t post hpre ht]

/-- Witness for C10 at a store holding a duplicate id after the first
match: the later task with the same id is untouched. -/
theorem mark_completed_frame_witness :
    mark_completed
      [⟨1, "a", false, "t", none⟩, ⟨2, "b", false, "t", none⟩, ⟨2, "c", false, "t", none⟩]
      "2" "u" =
      (OpResult.ok "b",
        [⟨1, "a", false, "t", none⟩, ⟨2, "b", true, "t", some "u"⟩,
         ⟨2, "c", false, "t", none⟩]) := by
  have h := mark_completed_frame [⟨1, "a", false, "t", none⟩] [⟨2, "c", false, "t", none⟩]
    ⟨2, "b", false, "t", none⟩ "2" "u" 2 (by decide) (by decide) rfl
  exact h.1.trans (by decide)

/-- Decoding the JSON encoding of one task restores every field exactly,
whether or not `completed_at` is present. -/
theorem taskOfJson_taskToJson (t : Task) : taskOfJson (taskToJson t) = some t := by
  obtain ⟨i, d, c, ca, co⟩ := t
  cases co <;> rfl

/-- C3: saving any task list and loading the result reproduces the same
tasks, in the same order, with identical `id`, `description`,
`completed`, `created_at` and `completed_at` fields — the save/load pair
is lossless. -/
theorem save_load_roundtrip (tasks : List Task) :
    load_tasks (save_tasks tasks) = some tasks := by
  induction tasks with
  | nil => rfl
  | cons t ts ih =>
    have h1 := taskOfJson_taskToJson t
    have h2 : decodeTaskList (ts.map taskToJson) = some ts := ih
    simp [save_tasks, load_tasks, decodeTaskList, h1, h2]

/-- C1: the claim that ids stay unique in every reachable state fails;
this theorem evaluates the code at the failing input.  Starting empty,
after add "a", add "b", remove 1, add "c" the store is reachable and
holds two simultaneously present tasks that both carry id 2, because
`add_task` assigns `id = len(tasks) + 1` after the removal shrank the
list.  The program's own help text promises each task a unique id. -/
theorem duplicate_id_reachable :
    Reachable [⟨2, "b", false, "t2", none⟩, ⟨2, "c", false, "t3", none⟩] ∧
    [(⟨2, "b", false, "t2", none⟩ : Task), ⟨2, "c", false, "t3", none⟩].map Task.id = [2, 2] := by
  constructor
  · have h := Reachable.step (Op.add "c" "t3")
      (Reachable.step (Op.remove "1")
        (Reachable.step (Op.add "b" "t2")
          (Reachable.step (Op.add "a" "t1") Reachable.empty)))
    have e : applyOp (applyOp (applyOp (applyOp [] (Op.add "a" "t1")) (Op.add "b" "t2"))
        (Op.remove "1")) (Op.add "c" "t3") =
        [⟨2, "b", false, "t2", none⟩, ⟨2, "c", false, "t3", none⟩] := by decide
    exact e ▸ h
  · rfl

/-- C2 counterexample: on the empty store `show_stats` takes the early
"No tasks available" return, so it does not report the zero statistics
record the claim promises. -/
theorem show_stats_empty_counterexample :
    show_stats ([] : List Task) = none ∧
    show_stats ([] : List Task) ≠
      some { total := 0, completed := 0, pending := 0, completion_rate := 0 } :=
  ⟨rfl, by decide⟩

/-- C2 amended: on the empty store `show_stats` reports the distinct
"no tasks available" signal, computing nothing and performing no
division; on every non-empty store it reports total, completed, pending
and `completion_rate = completed / total * 100` with `total` strictly
positive, so no division by zero can occur. -/
theorem show_stats_spec :
    show_stats ([] : List Task) = none ∧
    ∀ ts : List Task, ts ≠ [] →
      ∃ st : Stats, show_stats ts = some st ∧ st.total = ts.length ∧ 0 < st.total ∧
        st.completed = (ts.filter (fun t => t.completed)).length ∧
        st.pending = st.total - st.completed ∧
        st.completion_rate = (st.completed : Rat) / (st.total : Rat) * 100 := by
  refine ⟨rfl, ?_⟩
  intro ts hne
  have hpos : 0 < ts.length := List.length_pos.mpr hne
  have hN : ts.isEmpty = false := by simp [List.isEmpty_iff, hne]
  exact ⟨⟨ts.length, (ts.filter (fun t => t.completed)).length,
      ts.length - (ts.filter (fun t => t.completed)).length,
      ((ts.filter (fun t => t.completed)).length : Rat) / (ts.length : Rat) * 100⟩,
    by simp [show_stats, hN, hpos], rfl, hpos, rfl, rfl, rfl⟩

/-- Witness for C2 (amended) at the two-task store of the specification's
scenario: total 2, completed 1, pending 1, completion rate 50. -/
theorem show_stats_spec_witness :
    ∃ st : Stats,
      show_stats [⟨1, "a", true, "t", some "u"⟩, ⟨2, "b", false, "t", none⟩] = some st ∧
      st.total = 2 ∧ st.completed = 1 ∧ st.pending = 1 ∧ st.completion_rate = 50 := by
  obtain ⟨st, h1, h2, h3, h4, h5, h6⟩ := show_stats_spec.2
    [⟨1, "a", true, "t", some "u"⟩, ⟨2, "b", false, "t", none⟩] (by decide)
  have h2a : st.total = 2 := h2.trans (by decide)
  have h4a : st.completed = 1 := h4.trans (by decide)
  have h5a : st.pending = 1 := by rw [h5, h2a, h4a]
  have h6a : st.completion_rate = 50 := by rw [h6, h2a, h4a]; norm_num
  exact ⟨st, h1, h2a, h4a, h5a, h6a⟩

/-- Completed tasks never survive the pending filter. -/
theorem filter_completed_of_pending (ts : List Task) :
    (ts.filter (fun t => !t.completed)).filter (fun t => t.completed) = [] := by
  induction ts with
  | nil => rfl
  | cons t ts ih => by_cases hc : t.completed <;> simp [List.filter, hc, ih]

/-- C8 counterexample: immediately after clearing a store that held one
completed task, a second `clear_completed` reports the distinct
"no completed tasks to clear" message, not the count 0 the claim
promises. -/
theorem clear_completed_second_call_counterexample :
    (clear_completed ((clear_completed [⟨1, "a", true, "t", some "u"⟩]).2)).1 =
      ClearResult.noCompletedTasks ∧
    ClearResult.noCompletedTasks ≠ ClearResult.cleared 0 := by decide

/-- C8 amended: `clear_completed` removes exactly the completed tasks —
the surviving list is the pending tasks in their original order — and
reports the removed count when it is positive; when no task is completed
it leaves the list unchanged and reports the distinct "no completed
tasks to clear" message instead of a 0 count, so a second consecutive
call always reports that message. -/
theorem clear_completed_spec (tasks : List Task) :
    (clear_completed tasks).2 = tasks.filter (fun t => !t.completed) ∧
    ((tasks.filter (fun t => t.completed)).length ≠ 0 →
      (clear_completed tasks).1 =
        ClearResult.cleared (tasks.filter (fun t => t.completed)).length) ∧
    ((tasks.filter (fun t => t.completed)).length = 0 →
      (clear_completed tasks).1 = ClearResult.noCompletedTasks) ∧
    (clear_completed ((clear_completed tasks).2)).1 = ClearResult.noCompletedTasks := by
  refine ⟨?_, ?_, ?_, ?_⟩
  · by_cases h : (tasks.filter (fun t => t.completed)).length = 0
    · have hnil : tasks.filter (fun t => t.completed) = [] := List.length_eq_zero.mp h
      have hall : ∀ t ∈ tasks, t.completed = false := by
        intro t htmem
        by_contra hcon
        have : t ∈ tasks.filter (fun t => t.completed) :=
          List.mem_filter.mpr ⟨htmem, by simpa using hcon⟩
        simp [hnil] at this
      have hself : tasks.filter (fun t => !t.completed) = tasks :=
        List.filter_eq_self.mpr (by intro a ha; simp [hall a ha])
      simp [clear_completed, h, hself]
    · simp [clear_completed, h]
  · intro h; simp [clear_completed, h]
  · intro h; simp [clear_completed, h]
  · by_cases h : (tasks.filter (fun t => t.completed)).length = 0
    · simp [clear_completed, h]
    · simp [clear_completed, h, filter_completed_of_pending tasks]

/-- Witness for C8 (amended) at a store with one completed and one
pending task: the first call reports count 1 and keeps the pending task,
the second call reports the no-completed-tasks message. -/
theorem clear_completed_spec_witness :
    (clear_completed [⟨1, "a", true, "t", some "u"⟩, ⟨2, "b", false, "t", none⟩]).1 =
      ClearResult.cleared 1 ∧
    (clear_completed [⟨1, "a", true, "t", some "u"⟩, ⟨2, "b", false, "t", none⟩]).2 =
      [⟨2, "b", false, "t", none⟩] ∧
    (clear_completed
      ((clear_completed [⟨1, "a", true, "t", some "u"⟩, ⟨2, "b", false, "t", none⟩]).2)).1 =
      ClearResult.noCompletedTasks := by
  have h := clear_completed_spec [⟨1, "a", true, "t", some "u"⟩, ⟨2, "b", false, "t", none⟩]
  exact ⟨(h.2.1 (by decide)).trans (by decide), h.1.trans (by decide), h.2.2.2⟩

/-- A successful removal scan decomposes the list at the first match:
the input is `pre ++ r :: post` and the output is exactly `pre ++ post`. -/
theorem removeFirst_decomp (n : Int) :
    ∀ (ts : List Task) (r : Task) (rest : List Task),
      removeFirst n ts = some (r, rest) →
      ∃ pre post : List Task, ts = pre ++ r :: post ∧ rest = pre ++ post := by
  intro ts
  induction ts with
  | nil => intro r rest h; simp [removeFirst] at h
  | cons v vs ih =>
    intro r rest h
    by_cases hv : v.id = n
    · simp only [removeFirst, if_pos hv] at h
      have h' : (v, vs) = (r, rest) := Option.some.inj h
      cases h'
      exact ⟨[], vs, rfl, rfl⟩
    · simp only [removeFirst, if_neg hv] at h
      cases hrec : removeFirst n vs with
      | none => rw [hrec] at h; simp at h
      | some p =>
        obtain ⟨r0, rest0⟩ := p
        rw [hrec] at h
        have h' : (r0, v :: rest0) = (r, rest) := Option.some.inj h
        cases h'
        obtain ⟨pre, post, hp1, hp2⟩ := ih r rest0 hrec
        exact ⟨v :: pre, post, by simp [hp1], by simp [hp2]⟩

/-- A successful marking scan decomposes the list at the first match:
the input is `pre ++ t :: post` and the output is exactly `pre` followed
by `t` with `completed := true` and a freshly stamped `completed_at`,
followed by `post`. -/
theorem markFirst_decomp (n : Int) (now : String) :
    ∀ (ts : List Task) (d : String) (rest : List Task),
      markFirst n now ts = some (d, rest) →
      ∃ (pre post : List Task) (t : Task),
        ts = pre ++ t :: post ∧
        rest = pre ++ { t with completed := true, completed_at := some now } :: post ∧
        d = t.description := by
  intro ts
  induction ts with
  | nil => intro d rest h; simp [markFirst] at h
  | cons v vs ih =>
    intro d rest h
    by_cases hv : v.id = n
    · simp only [markFirst, if_pos hv] at h
      have h' : (v.description, { v with completed := true, completed_at := some now } :: vs) =
          (d, rest) := Option.some.inj h
      cases h'
      exact ⟨[], vs, v, rfl, rfl, rfl⟩
    · simp only [markFirst, if_neg hv] at h
      cases hrec : markFirst n now vs with
      | none => rw [hrec] at h; simp at h
      | some p =>
        obtain ⟨d0, rest0⟩ := p
        rw [hrec] at h
        have h' : (d0, v :: rest0) = (d, rest) := Option.some.inj h
        cases h'
        obtain ⟨pre, post, t, hp1, hp2, hp3⟩ := ih d rest0 hrec
        exact ⟨v :: pre, post, t, by simp [hp1], by simp [hp2], hp3⟩

/-- Each operation transforms the state in exactly one of five structural
ways: it leaves the list unchanged (validation, parse, not-found and
nothing-to-clear paths), appends one fresh not-yet-completed task
(`add_task`), removes exactly its first id-matching task
(`remove_task`), overwrites exactly its first id-matching task's
`completed`/`completed_at` with `true` and the fresh timestamp
(`mark_completed`), or keeps exactly the pending tasks
(`clear_completed`).  In every case each surviving task is either carried
over verbatim or has its `completed_at` set to `some` of the new
timestamp — never cleared. -/
theorem applyOp_shape (ts : List Task) (op : Op) :
    applyOp ts op = ts ∨
    (∃ d now : String,
      applyOp ts op = ts ++ [⟨(ts.length : Int) + 1, pyStrip d, false, now, none⟩]) ∨
    (∃ (pre post : List Task) (t : Task),
      ts = pre ++ t :: post ∧ applyOp ts op = pre ++ post) ∨
    (∃ (pre post : List Task) (t : Task) (now : String),
      ts = pre ++ t :: post ∧
      applyOp ts op = pre ++ { t with completed := true, completed_at := some now } :: post) ∨
    applyOp ts op = ts.filter (fun t => !t.completed) := by
  cases op with
  | add d now =>
    by_cases hd : pyStrip d = ""
    · left; simp [applyOp, add_task, hd]
    · right; left
      exact ⟨d, now, by simp [applyOp, add_task, hd]⟩
  | remove s =>
    cases hp : pyInt s with
    | none => left; simp [applyOp, remove_task, hp]
    | some n =>
      cases hr : removeFirst n ts with
      | none => left; simp [applyOp, remove_task, hp, hr]
      | some p =>
        obtain ⟨r, rest⟩ := p
        obtain ⟨pre, post, h1, h2⟩ := removeFirst_decomp n ts r rest hr
        right; right; left
        exact ⟨pre, post, r, h1, by simp [applyOp, remove_task, hp, hr, h2]⟩
  | complete s now =>
    cases hp : pyInt s with
    | none => left; simp [applyOp, mark_completed, hp]
    | some n =>
      cases hm : markFirst n now ts with
      | none => left; simp [applyOp, mark_completed, hp, hm]
      | some p =>
        obtain ⟨d, rest⟩ := p
        obtain ⟨pre, post, t, h1, h2, h3⟩ := markFirst_decomp n now ts d rest hm
        right; right; right; left
        exact ⟨pre, post, t, now, h1, by simp [applyOp, mark_completed, hp, hm, h2]⟩
  | clear =>
    by_cases h : (ts.filter (fun t => t.completed)).length = 0
    · left; simp [applyOp, clear_completed, h]
    · right; right; right; right
      simp [applyOp, clear_completed, h]

/-- Every task present after one operation is an untouched task of the
previous state, the completion update of one (whose `completed_at` is
set, never cleared), or a freshly added task (not yet completed, with no
`completed_at`). -/
theorem applyOp_mem (ts : List Task) (op : Op) :
    ∀ u ∈ applyOp ts op,
      u ∈ ts ∨
      (∃ t ∈ ts, ∃ now : String, u = { t with completed := true, completed_at := some now }) ∨
      (u.completed = false ∧ u.completed_at = none) := by
  intro u hu
  cases op with
  | add d now =>
    simp only [applyOp, add_task] at hu
    by_cases hd : pyStrip d = ""
    · rw [if_pos hd] at hu
      exact Or.inl hu
    · rw [if_neg hd] at hu
      simp at hu
      rcases hu with h | h
      · exact Or.inl h
      · right; right; rw [h]; exact ⟨rfl, rfl⟩
  | remove s =>
    simp only [applyOp, remove_task] at hu
    cases hp : pyInt s with
    | none => simp only [hp] at hu; exact Or.inl hu
    | some n =>
      simp only [hp] at hu
      cases hr : removeFirst n ts with
      | none => simp only [hr] at hu; exact Or.inl hu
      | some p =>
        obtain ⟨r, rest⟩ := p
        simp only [hr] at hu
        exact Or.inl (removeFirst_subset n ts r rest hr u hu)
  | complete s now =>
    simp only [applyOp, mark_completed] at hu
    cases hp : pyInt s with
    | none => simp only [hp] at hu; exact Or.inl hu
    | some n =>
      simp only [hp] at hu
      cases hm : markFirst n now ts with
      | none => simp only [hm] at hu; exact Or.inl hu
      | some p =>
        obtain ⟨d, rest⟩ := p
        simp only [hm] at hu
        rcases markFirst_mem n now ts d rest hm u hu with h | ⟨t, htm, heq⟩
        · exact Or.inl h
        · exact Or.inr (Or.inl ⟨t, htm, now, heq⟩)
  | clear =>
    simp only [applyOp, clear_completed] at hu
    by_cases h : (ts.filter (fun t => t.completed)).length = 0
    · simp only [if_pos h] at hu
      exact Or.inl hu
    · simp only [if_neg h] at hu
      exact Or.inl (List.mem_of_mem_filter hu)

/-- C9: in every store state reachable from the empty store by add,
remove, complete and clear-completed operations, a task that is not
completed has no `completed_at`; and no operation ever un-completes a
task or clears an existing `completed_at`: every operation's result
state is exactly the old state, the old state with one fresh
not-yet-completed task appended, the old state with precisely its first
id-matching task removed, the old state with precisely its first
id-matching task's `completed`/`completed_at` overwritten with `true`
and a fresh `some` timestamp, or precisely the pending tasks of the old
state — in each case every surviving task is carried over verbatim or
has `completed_at` set, never cleared. -/
theorem completed_at_invariant :
    (∀ ts : List Task, Reachable ts → ∀ t ∈ ts, t.completed = false → t.completed_at = none) ∧
    (∀ (ts : List Task) (op : Op),
      applyOp ts op = ts ∨
      (∃ d now : String,
        applyOp ts op = ts ++ [⟨(ts.length : Int) + 1, pyStrip d, false, now, none⟩]) ∨
      (∃ (pre post : List Task) (t : Task),
        ts = pre ++ t :: post ∧ applyOp ts op = pre ++ post) ∨
      (∃ (pre post : List Task) (t : Task) (now : String),
        ts = pre ++ t :: post ∧
        applyOp ts op = pre ++ { t with completed := true, completed_at := some now } :: post) ∨
      applyOp ts op = ts.filter (fun t => !t.completed)) := by
  constructor
  · intro ts hreach
    induction hreach with
    | empty => intro t ht; simp at ht
    | step op hprev ih =>
      intro t htmem hfalse
      rcases applyOp_mem _ op t htmem with h | ⟨t0, ht0, now, heq⟩ | ⟨h1, h2⟩
      · exact ih t h hfalse
      · rw [heq] at hfalse; simp at hfalse
      · exact h2
  · exact applyOp_shape

/-- Witness for C9 at the reachable one-task store produced by a single
add: its task is not completed and indeed carries no `completed_at`. -/
theorem completed_at_invariant_witness :
    (⟨1, "x", false, "t0", none⟩ : Task).completed_at = none := by
  have e : applyOp [] (Op.add "x" "t0") = [⟨1, "x", false, "t0", none⟩] := by decide
  have hreach : Reachable [⟨1, "x", false, "t0", none⟩] :=
    e ▸ Reachable.step (Op.add "x" "t0") Reachable.empty
  exact completed_at_invariant.1 [⟨1, "x", false, "t0", none⟩] hreach
    ⟨1, "x", false, "t0", none⟩ (by simp) rfl

end Todo
